import Mathlib

/-!
Verification of the foamlib C parsing primitives.

The development shallowly embeds the two C extension modules of the
repository:

* `_skip_ext.c` — whitespace/comment skipping (`skip`) and the number
  lexer (`parse_number`), namespace `SkipExt` below;
* `parse_ascii.c` — the numeric-list and faces-list parsers
  (`parse_ascii_list`, `parse_ascii_faces_list`) together with their
  internal `skip_whitespace_and_comments` and `parse_number` helpers,
  namespace `ParseAscii` below.

Buffers are modelled as `List Nat` of byte values; cursors are `Nat`
offsets.  Every C loop is embedded as a fuel-indexed structurally
recursive function (the fuel is an upper bound on the number of loop
iterations; each top-level wrapper passes a bound that provably
suffices), so that all definitions compute by `rfl`/`decide`.
-/

deriving instance DecidableEq for Except

/-- Byte value of each character of a string literal (ASCII test inputs). -/
def strBytes (s : String) : List Nat :=
  s.data.map Char.toNat

/-- ASCII decimal digit test. -/
def isDigitB (c : Nat) : Bool :=
  48 ≤ c && c ≤ 57

/-- Lower-case an ASCII byte (`tolower` for letters, identity otherwise). -/
def lowerByte (c : Nat) : Nat :=
  if 65 ≤ c ∧ c ≤ 90 then c + 32 else c

/-- Value of a list of ASCII digit bytes read in base 10. -/
def digitsToNat (ds : List Nat) : Nat :=
  ds.foldl (fun a c => a * 10 + (c - 48)) 0

/-- Saturation behaviour of `strtoll`: values outside the `long long` range
come back clamped to it (`parse_ascii.c` does not inspect `errno`). -/
def clampI64 (z : ℤ) : ℤ :=
  max (-(2 ^ 63)) (min (2 ^ 63 - 1) z)

/-- Bit length of a natural number, fuel-indexed (fuel `n` suffices for `n`). -/
def bitsAux : Nat → Nat → Nat
  | 0, _ => 0
  | fuel + 1, n => if n = 0 then 0 else bitsAux fuel (n / 2) + 1

/-- Bit length of a natural number. -/
def bits (n : Nat) : Nat :=
  bitsAux n n

/-- Round `n` to the nearest multiple of `2 ^ s`, ties to even. -/
def roundEven (n s : Nat) : Nat :=
  if n % 2 ^ s < 2 ^ (s - 1) then n / 2 ^ s * 2 ^ s
  else if 2 ^ (s - 1) < n % 2 ^ s then (n / 2 ^ s + 1) * 2 ^ s
  else if n / 2 ^ s % 2 = 0 then n / 2 ^ s * 2 ^ s
  else (n / 2 ^ s + 1) * 2 ^ s

/-- The C conversion `(double)` on a natural number: exact up to `2 ^ 53`,
rounded to nearest (ties to even) at the 53-bit significand ulp above. -/
def doubleRoundNat (n : Nat) : Nat :=
  if n < 2 ^ 53 then n else roundEven n (bits n - 53)

/-- The C conversion `(double)` on an integer in the int64 range. -/
def doubleRoundInt (z : ℤ) : ℤ :=
  if 0 ≤ z then doubleRoundNat z.toNat else -(doubleRoundNat (-z).toNat)

/-- Split a list into consecutive rows of `k` elements (row-major 2-D fill),
fuel-indexed; fuel `xs.length` suffices for `k ≥ 1`. -/
def chunkAux {α : Type} (k : Nat) : Nat → List α → List (List α)
  | 0, _ => []
  | _, [] => []
  | fuel + 1, xs => xs.take k :: chunkAux k fuel (xs.drop k)

/-- Split a list into consecutive rows of `k` elements. -/
def chunk {α : Type} (k : Nat) (xs : List α) : List (List α) :=
  chunkAux k xs.length xs

namespace SkipExt

/-- Positional decode error: `FoamFileDecodeError(contents, offset, expected=...)`.
The buffer reference is implicit (theorems quantify over the buffer). -/
structure DecodeError where
  offset : Nat
  expected : String
deriving DecidableEq, Repr

/-- Whitespace test of `skip` (`' '`, `'\t'`, `'\r'`, `'\f'`, `'\v'`, and
`'\n'` iff `newline_ok`), from `_skip_ext.c` lines 32-40. -/
def wsByte (newlineOk : Bool) (c : Nat) : Bool :=
  c == 32 || c == 9 || c == 13 || c == 12 || c == 11 || (c == 10 && newlineOk)

/-- Inner whitespace loop of `skip` (`_skip_ext.c` lines 32-40), fuel-indexed. -/
def skipWsAux (buf : List Nat) (nl : Bool) : Nat → Nat → Nat
  | 0, pos => pos
  | fuel + 1, pos =>
    if pos < buf.length then
      if wsByte nl (buf.getD pos 0) then skipWsAux buf nl fuel (pos + 1) else pos
    else pos

/-- Whitespace run skip: entry point with sufficient fuel. -/
def skipWs (buf : List Nat) (nl : Bool) (pos : Nat) : Nat :=
  skipWsAux buf nl (buf.length + 1) pos

/-- Scan of a `//` line comment body (`_skip_ext.c` lines 53-67): stop at the
newline (consuming it iff `newline_ok`), honouring backslash-newline
line continuations. Fuel-indexed. -/
def skipLineAux (buf : List Nat) (nl : Bool) : Nat → Nat → Nat
  | 0, pos => pos
  | fuel + 1, pos =>
    if pos < buf.length then
      if buf.getD pos 0 == 10 then
        if nl then pos + 1 else pos
      else if buf.getD pos 0 == 92 && decide (pos + 1 < buf.length) &&
          buf.getD (pos + 1) 0 == 10 then
        skipLineAux buf nl fuel (pos + 2)
      else
        skipLineAux buf nl fuel (pos + 1)
    else pos

/-- Line-comment scan: entry point with sufficient fuel. -/
def skipLine (buf : List Nat) (nl : Bool) (pos : Nat) : Nat :=
  skipLineAux buf nl (buf.length + 1) pos

/-- Scan for the closing `*/` of a block comment (`_skip_ext.c` lines 74-112):
either the position just after the closing `*/`, or the decode error
`(len, "*/")` raised when the buffer ends first. Fuel-indexed; the
out-of-fuel value coincides with the error case. -/
def skipBlockAux (buf : List Nat) : Nat → Nat → Except DecodeError Nat
  | 0, _ => .error ⟨buf.length, "*/"⟩
  | fuel + 1, pos =>
    if pos + 1 < buf.length then
      if buf.getD pos 0 == 42 && buf.getD (pos + 1) 0 == 47 then
        .ok (pos + 2)
      else skipBlockAux buf fuel (pos + 1)
    else .error ⟨buf.length, "*/"⟩

/-- Block-comment scan: entry point with sufficient fuel. -/
def skipBlock (buf : List Nat) (pos : Nat) : Except DecodeError Nat :=
  skipBlockAux buf (buf.length + 1) pos

/-- Outer loop of `skip` (`_skip_ext.c` lines 30-118), fuel-indexed: skip a
whitespace run, then dispatch on a `//` or `/*` opener, else stop. -/
def skipAux (buf : List Nat) (nl : Bool) : Nat → Nat → Except DecodeError Nat
  | 0, pos => .ok pos
  | fuel + 1, pos =>
    let p1 := skipWs buf nl pos
    if buf.length ≤ p1 + 1 then .ok p1
    else if buf.getD p1 0 == 47 && buf.getD (p1 + 1) 0 == 47 then
      skipAux buf nl fuel (skipLine buf nl (p1 + 2))
    else if buf.getD p1 0 == 47 && buf.getD (p1 + 1) 0 == 42 then
      match skipBlock buf (p1 + 2) with
      | .ok q => skipAux buf nl fuel q
      | .error e => .error e
    else .ok p1

/-- `_skip(contents, pos, newline_ok)` of `_skip_ext.c`: the advanced cursor,
or a decode error for an unterminated block comment. -/
def skip (buf : List Nat) (nl : Bool) (pos : Nat) : Except DecodeError Nat :=
  skipAux buf nl (buf.length + 1) pos

/-- `_IS_POSSIBLE_FLOAT` lookup table of `_skip_ext.c` (line 133): the bytes
of `"0123456789.-+eEinfnatyINFNATY"`. -/
def isPossibleFloat (c : Nat) : Bool :=
  isDigitB c || c == 46 || c == 45 || c == 43 || c == 101 || c == 69 ||
    c == 105 || c == 110 || c == 102 || c == 97 || c == 116 || c == 121 ||
    c == 73 || c == 78 || c == 70 || c == 65 || c == 84 || c == 89

/-- `_IS_POSSIBLE_INTEGER` lookup table (line 139): the bytes of
`"0123456789-+"`. -/
def isPossibleInteger (c : Nat) : Bool :=
  isDigitB c || c == 45 || c == 43

/-- `_IS_TOKEN_CONTINUATION` lookup table (lines 145-152): ASCII letters,
`_`, `#`, `$`, the digits, and the bytes of `"._<>:+-*/|^%&=!"`. -/
def isTokenCont (c : Nat) : Bool :=
  (97 ≤ c && c ≤ 122) || (65 ≤ c && c ≤ 90) || c == 95 || c == 35 || c == 36 ||
    isDigitB c || c == 46 || c == 60 || c == 62 || c == 58 || c == 43 ||
    c == 45 || c == 42 || c == 47 || c == 124 || c == 94 || c == 37 ||
    c == 38 || c == 61 || c == 33

/-- The `target` argument of `_parse_number` (`ParseNumberTarget` enum). -/
inductive Target where
  | int
  | float
  | intOrFloat
deriving DecidableEq, Repr

/-- Value of a Python float: NaN, a signed infinity, or a finite value.
Finite values are carried exactly as rationals; the IEEE-754 rounding of
CPython's float construction is not modelled, as no verified claim depends
on the rounded value of a non-integral literal. -/
inductive PyFloat where
  | nan
  | inf (neg : Bool)
  | fin (q : ℚ)
deriving DecidableEq, Repr

/-- Result value of `_parse_number`: a Python `int` or `float`. -/
inductive PyNum where
  | int (z : ℤ)
  | float (f : PyFloat)
deriving DecidableEq, Repr

/-- Positional parse error of `_parse_number` (`raise_parse_error`):
failing offset and expected-description. -/
structure PErr where
  pos : Nat
  expected : String
deriving DecidableEq, Repr

/-- Strip one leading ASCII sign byte, returning (negative?, rest). -/
def stripSign (s : List Nat) : Bool × List Nat :=
  match s with
  | [] => (false, [])
  | c :: t => if c = 45 then (true, t) else if c = 43 then (false, t) else (false, s)

/-- Bytes of `"nan"`. -/
def nanBytes : List Nat := [110, 97, 110]

/-- Bytes of `"inf"`. -/
def infBytes : List Nat := [105, 110, 102]

/-- Bytes of `"infinity"`. -/
def infinityBytes : List Nat := [105, 110, 102, 105, 110, 105, 116, 121]

/-- Exponent tail of a Python float literal: either nothing, or `e`/`E`,
an optional sign, and a non-empty digit run consuming the whole rest. -/
def parseExpTail (r : List Nat) (m : ℚ) : Option ℚ :=
  match r with
  | [] => some m
  | c :: r2 =>
    if c = 101 ∨ c = 69 then
      if ((stripSign r2).2.takeWhile isDigitB).isEmpty ||
          !((stripSign r2).2.dropWhile isDigitB).isEmpty then none
      else some (if (stripSign r2).1
        then m / 10 ^ digitsToNat ((stripSign r2).2.takeWhile isDigitB)
        else m * 10 ^ digitsToNat ((stripSign r2).2.takeWhile isDigitB))
    else none

/-- Decimal part of a Python float literal (sign already stripped):
`digits [. digits] [exp]` with at least one mantissa digit. -/
def parseDecimal (t : List Nat) : Option ℚ :=
  match t.dropWhile isDigitB with
  | 46 :: r2 =>
    if (t.takeWhile isDigitB).isEmpty && (r2.takeWhile isDigitB).isEmpty then none
    else parseExpTail (r2.dropWhile isDigitB)
      ((digitsToNat (t.takeWhile isDigitB) : ℚ) +
        (digitsToNat (r2.takeWhile isDigitB) : ℚ) / 10 ^ (r2.takeWhile isDigitB).length)
  | rest =>
    if (t.takeWhile isDigitB).isEmpty then none
    else parseExpTail rest (digitsToNat (t.takeWhile isDigitB) : ℚ)

/-- Modelled from CPython's `PyFloat_FromString`, restricted to the byte
alphabet reachable through the numeric lookup tables (no whitespace or
underscores, which those tables exclude): optional sign, then a
case-insensitive `nan`/`inf`/`infinity` spelling or a decimal literal. -/
def pyFloatFromString (s : List Nat) : Option PyFloat :=
  if (stripSign s).2.map lowerByte = nanBytes then some .nan
  else if (stripSign s).2.map lowerByte = infBytes ∨
      (stripSign s).2.map lowerByte = infinityBytes then
    some (.inf (stripSign s).1)
  else
    match parseDecimal (stripSign s).2 with
    | some q => some (.fin (if (stripSign s).1 then -q else q))
    | none => none

/-- Modelled from CPython's `PyLong_FromString` in base 10, restricted to
the byte alphabet reachable through the numeric lookup tables (no
whitespace or underscores, which those tables exclude): optional sign and
a non-empty digit run. -/
def pyLongFromString (s : List Nat) : Option ℤ :=
  if !(stripSign s).2.isEmpty && (stripSign s).2.all isDigitB then
    some ((if (stripSign s).1 then -1 else 1) * (digitsToNat (stripSign s).2 : ℤ))
  else none

/-- The run of possible numeric bytes scanned by `_parse_number`
(`_skip_ext.c` lines 221-224) starting at `pos`. -/
def numChars (buf : List Nat) (pos : Nat) (target : Target) : List Nat :=
  (buf.drop pos).takeWhile (if target = .int then isPossibleInteger else isPossibleFloat)

/-- `_parse_number(contents, pos, target)` of `_skip_ext.c` (lines 184-300):
scan the maximal run of possible numeric bytes, reject a following
token-continuation byte or an empty run, then convert via the CPython
int/float constructors according to `target`. -/
def parse_number (buf : List Nat) (pos : Nat) (target : Target) :
    Except PErr (PyNum × Nat) :=
  let chars := numChars buf pos target
  let e := pos + chars.length
  if decide (e < buf.length) && isTokenCont (buf.getD e 0) then
    .error ⟨pos, "number"⟩
  else if chars.isEmpty then
    .error ⟨pos, "number"⟩
  else
    match target with
    | .float =>
      match pyFloatFromString chars with
      | some f => .ok (.float f, e)
      | none => .error ⟨pos, "float"⟩
    | t =>
      match pyLongFromString chars with
      | some z => .ok (.int z, e)
      | none =>
        if t = .int then .error ⟨pos, "integer"⟩
        else
          match pyFloatFromString chars with
          | some f => .ok (.float f, e)
          | none => .error ⟨pos, "number"⟩

/-- A scanned literal that spells NaN or an infinity after its optional
sign (case-insensitively). -/
def specialSpelling (chars : List Nat) : Bool :=
  let l := (stripSign chars).2.map lowerByte
  l == nanBytes || l == infBytes || l == infinityBytes

/-- The float value a special spelling denotes: NaN, or an infinity signed
by the stripped sign. -/
def specialVal (chars : List Nat) : PyFloat :=
  if (stripSign chars).2.map lowerByte = nanBytes then .nan
  else .inf (stripSign chars).1

end SkipExt

namespace ParseAscii

/-- `isspace` on ASCII bytes (space, tab, newline, VT, FF, CR). -/
def isspaceB (c : Nat) : Bool :=
  c == 32 || c == 9 || c == 10 || c == 11 || c == 12 || c == 13

/-- A C `double` held in the parsers' scratch storage: NaN, a signed
infinity, or a finite value.  Finite values are carried exactly as
rationals; integer literals go through `doubleRoundInt`, which models the
`(double)` conversion exactly, while the IEEE-754 rounding of `strtod` on
non-integral literals is not modelled (no verified claim depends on such a
value). -/
inductive AFloat where
  | nan
  | inf (neg : Bool)
  | fin (q : ℚ)
deriving DecidableEq, Repr

/-- The `ValueError`s raised by `parse_ascii.c`, one constructor per
`PyErr_SetString`/`PyErr_Format` call site. -/
inductive AErr where
  | unexpectedEnd
  | nestedParen
  | invalidChar (c : Nat)
  | unexpectedChar (c : Nat)
  | typeMismatch
  | shapeMismatch (count : Nat) (elshape : Nat)
  | expectedInt
deriving DecidableEq, Repr

/-- Bytes of `"inity"`. -/
def inityBytes : List Nat := [105, 110, 105, 116, 121]

/-- Line-comment scan of `skip_whitespace_and_comments` (`parse_ascii.c`
lines 24-31): stop at the newline or the end, honouring backslash-newline
continuations. Fuel-indexed. -/
def lineScanAux (buf : List Nat) : Nat → Nat → Nat
  | 0, pos => pos
  | fuel + 1, pos =>
    if pos < buf.length then
      if buf.getD pos 0 == 10 then pos
      else if buf.getD pos 0 == 92 && decide (pos + 1 < buf.length) &&
          buf.getD (pos + 1) 0 == 10 then
        lineScanAux buf fuel (pos + 2)
      else lineScanAux buf fuel (pos + 1)
    else pos

/-- Line-comment skip including the terminating newline when present
(`parse_ascii.c` lines 24-34). -/
def lineSkip (buf : List Nat) (pos : Nat) : Nat :=
  let r := lineScanAux buf (buf.length + 1) pos
  if decide (r < buf.length) && buf.getD r 0 == 10 then r + 1 else r

/-- Block-comment scan of `skip_whitespace_and_comments` (`parse_ascii.c`
lines 42-48): advance until just past a `*/`, or until fewer than two
bytes remain; unterminated comments raise no error. Fuel-indexed. -/
def blockScanAux (buf : List Nat) : Nat → Nat → Nat
  | 0, pos => pos
  | fuel + 1, pos =>
    if pos + 1 < buf.length then
      if buf.getD pos 0 == 42 && buf.getD (pos + 1) 0 == 47 then pos + 2
      else blockScanAux buf fuel (pos + 1)
    else pos

/-- Block-comment scan: entry point with sufficient fuel. -/
def blockScan (buf : List Nat) (pos : Nat) : Nat :=
  blockScanAux buf (buf.length + 1) pos

/-- Outer loop of `skip_whitespace_and_comments` (`parse_ascii.c`
lines 10-57), fuel-indexed. -/
def skipWCAux (buf : List Nat) : Nat → Nat → Nat
  | 0, pos => pos
  | fuel + 1, pos =>
    if pos < buf.length then
      if isspaceB (buf.getD pos 0) then skipWCAux buf fuel (pos + 1)
      else if decide (pos + 1 < buf.length) && buf.getD pos 0 == 47 &&
          buf.getD (pos + 1) 0 == 47 then
        skipWCAux buf fuel (lineSkip buf (pos + 2))
      else if decide (pos + 1 < buf.length) && buf.getD pos 0 == 47 &&
          buf.getD (pos + 1) 0 == 42 then
        skipWCAux buf fuel (blockScan buf (pos + 2))
      else pos
    else pos

/-- `skip_whitespace_and_comments(p, end)` of `parse_ascii.c`. -/
def skip_whitespace_and_comments (buf : List Nat) (pos : Nat) : Nat :=
  skipWCAux buf (buf.length + 1) pos

/-- Position after the leading `isspace` run of `parse_number`
(`parse_ascii.c` lines 67-69); also where the 128-byte copy starts
(lines 147-151). -/
def wsRunEnd (buf : List Nat) (strPos : Nat) : Nat :=
  strPos + ((buf.drop strPos).takeWhile isspaceB).length

/-- Sign handling (lines 76-81): whether the first non-space byte is `-`. -/
def negAt (buf : List Nat) (p0 : Nat) : Bool :=
  buf.getD p0 0 == 45

/-- Position after the optional sign byte (lines 76-81). -/
def signEnd (buf : List Nat) (p0 : Nat) : Nat :=
  if buf.getD p0 0 == 45 || buf.getD p0 0 == 43 then p0 + 1 else p0

/-- Case-insensitive `nan` at `p1` (lines 86-90). -/
def nanAt (buf : List Nat) (p1 : Nat) : Bool :=
  decide (p1 + 3 ≤ buf.length) &&
    ((buf.drop p1).take 3).map lowerByte == SkipExt.nanBytes

/-- Case-insensitive `inf` at `p1` (lines 93-102). -/
def infAt (buf : List Nat) (p1 : Nat) : Bool :=
  decide (p1 + 3 ≤ buf.length) &&
    ((buf.drop p1).take 3).map lowerByte == SkipExt.infBytes

/-- Case-insensitive `inity` continuation after `inf` (lines 96-98). -/
def inityAt (buf : List Nat) (p1 : Nat) : Bool :=
  decide (p1 + 3 + 5 ≤ buf.length) &&
    ((buf.drop (p1 + 3)).take 5).map lowerByte == inityBytes

/-- The digit run starting at a position. -/
def digitsAt (buf : List Nat) (p : Nat) : List Nat :=
  (buf.drop p).takeWhile isDigitB

/-- End of the pre-decimal digit run (lines 107-110). -/
def intEnd (buf : List Nat) (p1 : Nat) : Nat :=
  p1 + (digitsAt buf p1).length

/-- Decimal point present (lines 113-121). -/
def hasDecAt (buf : List Nat) (p1 : Nat) : Bool :=
  decide (intEnd buf p1 < buf.length) && buf.getD (intEnd buf p1) 0 == 46

/-- Start of the post-decimal digit run. -/
def fracStart (buf : List Nat) (p1 : Nat) : Nat :=
  if hasDecAt buf p1 then intEnd buf p1 + 1 else intEnd buf p1

/-- The post-decimal digit run. -/
def fracDsAt (buf : List Nat) (p1 : Nat) : List Nat :=
  if hasDecAt buf p1 then digitsAt buf (fracStart buf p1) else []

/-- End of the post-decimal digit run. -/
def fracEnd (buf : List Nat) (p1 : Nat) : Nat :=
  fracStart buf p1 + (fracDsAt buf p1).length

/-- Exponent marker present (lines 124-127). -/
def hasExpAt (buf : List Nat) (p1 : Nat) : Bool :=
  decide (fracEnd buf p1 < buf.length) &&
    (buf.getD (fracEnd buf p1) 0 == 101 || buf.getD (fracEnd buf p1) 0 == 69)

/-- Position after the exponent marker. -/
def expMarkEnd (buf : List Nat) (p1 : Nat) : Nat :=
  if hasExpAt buf p1 then fracEnd buf p1 + 1 else fracEnd buf p1

/-- Negative exponent sign present (lines 129-131). -/
def expNegAt (buf : List Nat) (p1 : Nat) : Bool :=
  hasExpAt buf p1 && decide (expMarkEnd buf p1 < buf.length) &&
    buf.getD (expMarkEnd buf p1) 0 == 45

/-- Any exponent sign present (lines 129-131). -/
def expSignAt (buf : List Nat) (p1 : Nat) : Bool :=
  hasExpAt buf p1 && decide (expMarkEnd buf p1 < buf.length) &&
    (buf.getD (expMarkEnd buf p1) 0 == 43 || buf.getD (expMarkEnd buf p1) 0 == 45)

/-- Start of the exponent digit run. -/
def expDsStart (buf : List Nat) (p1 : Nat) : Nat :=
  if expSignAt buf p1 then expMarkEnd buf p1 + 1 else expMarkEnd buf p1

/-- The exponent digit run (lines 134-136). -/
def expDsAt (buf : List Nat) (p1 : Nat) : List Nat :=
  if hasExpAt buf p1 then digitsAt buf (expDsStart buf p1) else []

/-- End of the scanned literal. -/
def numEnd (buf : List Nat) (p1 : Nat) : Nat :=
  expDsStart buf p1 + (expDsAt buf p1).length

/-- Value stored by the integer path (lines 163-169): the saturating
`strtoll` of `[sign]digits` followed by the `(double)` conversion. -/
def intPathVal (buf : List Nat) (p0 p1 : Nat) : ℚ :=
  ((doubleRoundInt (clampI64 ((if negAt buf p0 then -1 else 1) *
    (digitsToNat (digitsAt buf p1) : ℤ))) : ℤ) : ℚ)

/-- Unsigned mantissa value of the float path. -/
def mantVal (buf : List Nat) (p1 : Nat) : ℚ :=
  (digitsToNat (digitsAt buf p1) : ℚ) +
    (digitsToNat (fracDsAt buf p1) : ℚ) / 10 ^ (fracDsAt buf p1).length

/-- Value stored by the float path (lines 170-176): the exact decimal value
of the literal (the IEEE-754 rounding that `strtod` performs on the exact
value is not modelled; no verified claim depends on it). -/
def floatPathVal (buf : List Nat) (p0 p1 : Nat) : ℚ :=
  if negAt buf p0 then
    -(if hasExpAt buf p1 then
        (if expNegAt buf p1 then mantVal buf p1 / 10 ^ digitsToNat (expDsAt buf p1)
          else mantVal buf p1 * 10 ^ digitsToNat (expDsAt buf p1))
      else mantVal buf p1)
  else
    (if hasExpAt buf p1 then
        (if expNegAt buf p1 then mantVal buf p1 / 10 ^ digitsToNat (expDsAt buf p1)
          else mantVal buf p1 * 10 ^ digitsToNat (expDsAt buf p1))
      else mantVal buf p1)

/-- Body of `parse_number` after the leading whitespace was skipped to `p0`
and the optional sign consumed up to `p1`: special NaN/infinity spellings,
then the numeric literal grammar with the conversion checks of
`parse_ascii.c` lines 139-176 (`p == start`, 128-byte copy buffer,
`strtoll`/`strtod` with full-consumption checks). -/
def parseNumSigned (buf : List Nat) (p0 p1 : Nat) : Option (AFloat × Bool × Nat) :=
  if nanAt buf p1 then some (.nan, false, p1 + 3)
  else if infAt buf p1 then
    if inityAt buf p1 then some (.inf (negAt buf p0), false, p1 + 8)
    else some (.inf (negAt buf p0), false, p1 + 3)
  else if numEnd buf p1 = p1 then none
  else if 128 ≤ numEnd buf p1 - p0 then none
  else if !hasDecAt buf p1 && !hasExpAt buf p1 then
    if (digitsAt buf p1).isEmpty then none
    else some (.fin (intPathVal buf p0 p1), true, numEnd buf p1)
  else if ((digitsAt buf p1).isEmpty && (fracDsAt buf p1).isEmpty) ||
      (hasExpAt buf p1 && (expDsAt buf p1).isEmpty) then none
  else some (.fin (floatPathVal buf p0 p1), false, numEnd buf p1)

/-- `parse_number(str, end, &result, &is_int)` of `parse_ascii.c`
(lines 60-179): skip leading whitespace, read an optional sign, recognise
`nan`/`inf[inity]`, else scan `digits [. digits] [e [sign] digits]` and
convert. Returns the stored double, the `is_int` flag and the end
position, or `none` where C returns `NULL`. -/
def parse_number (buf : List Nat) (strPos : Nat) : Option (AFloat × Bool × Nat) :=
  if buf.length ≤ wsRunEnd buf strPos then none
  else parseNumSigned buf (wsRunEnd buf strPos)
    (signEnd buf (wsRunEnd buf strPos))

/-- The C cast `(long long)` applied to a stored double when filling int64
result arrays: truncation toward zero. Only integral finite values reach
it in the program; the non-finite cases (undefined behaviour in C) are
mapped to 0. -/
def castLL : AFloat → ℤ
  | .fin q => q.num.tdiv q.den
  | _ => 0

/-- Main loop of `parse_ascii_list` (`parse_ascii.c` lines 220-300),
fuel-indexed. State: cursor, parenthesis depth, accumulated values in
reverse encounter order. The out-of-fuel value duplicates the
end-of-input error and is never reached from the entry point. -/
def listLoop (buf : List Nat) (isFloat : Bool) (elshape : Nat) :
    Nat → Nat → Nat → List AFloat → Except AErr (List AFloat × Nat)
  | 0, _, _, _ => .error .unexpectedEnd
  | fuel + 1, p, depth, acc =>
    if buf.length ≤ p then .ok (acc.reverse, p)
    else
      let q := skip_whitespace_and_comments buf p
      if buf.length ≤ q then .error .unexpectedEnd
      else if buf.getD q 0 == 40 then
        if elshape = 0 then .error .nestedParen
        else listLoop buf isFloat elshape fuel (q + 1) (depth + 1) acc
      else if buf.getD q 0 == 41 then
        if depth = 0 then .ok (acc.reverse, q + 1)
        else listLoop buf isFloat elshape fuel (q + 1) (depth - 1) acc
      else if buf.getD q 0 == 123 || buf.getD q 0 == 125 || buf.getD q 0 == 91 ||
          buf.getD q 0 == 93 || buf.getD q 0 == 59 then
        .error (.invalidChar (buf.getD q 0))
      else
        match parse_number buf q with
        | none => .error (.unexpectedChar (buf.getD q 0))
        | some (v, isInt, nxt) =>
          if !isFloat && !isInt then .error .typeMismatch
          else listLoop buf isFloat elshape fuel nxt depth (v :: acc)

/-- The numpy array built by the list parsers: int64 or double, 1-D or
2-D row-major. -/
inductive NDArr where
  | int1 (xs : List ℤ)
  | int2 (xs : List (List ℤ))
  | float1 (xs : List AFloat)
  | float2 (xs : List (List AFloat))
deriving DecidableEq, Repr

/-- Array construction of `parse_ascii_list` (`parse_ascii.c`
lines 302-353): shape validation, then a 1-D or row-major 2-D fill,
casting each stored double to int64 when `is_float` is false. -/
def mkArr (isFloat : Bool) (elshape : Nat) (vals : List AFloat) : Except AErr NDArr :=
  if elshape = 0 then
    .ok (if isFloat then .float1 vals else .int1 (vals.map castLL))
  else if vals.length % elshape ≠ 0 then .error (.shapeMismatch vals.length elshape)
  else .ok (if isFloat then .float2 (chunk elshape vals)
            else .int2 (chunk elshape (vals.map castLL)))

/-- `parse_ascii_list(contents, start_pos, is_float, elshape)`. -/
def parse_ascii_list (buf : List Nat) (startPos : Nat) (isFloat : Bool)
    (elshape : Nat) : Except AErr (NDArr × Nat) :=
  match listLoop buf isFloat elshape (buf.length + 1) startPos 0 [] with
  | .error e => .error e
  | .ok (vals, p) =>
    match mkArr isFloat elshape vals with
    | .error e => .error e
    | .ok arr => .ok (arr, p)

/-- Main loop of `parse_ascii_faces_list` (`parse_ascii.c` lines 402-466),
fuel-indexed. State: cursor, inside-a-face flag, accumulated int64 values
in reverse encounter order. -/
def facesLoop (buf : List Nat) :
    Nat → Nat → Bool → List ℤ → Except AErr (List ℤ × Nat)
  | 0, _, _, _ => .error .unexpectedEnd
  | fuel + 1, p, inside, acc =>
    if buf.length ≤ p then .ok (acc.reverse, p)
    else
      let q := skip_whitespace_and_comments buf p
      if buf.length ≤ q then .error .unexpectedEnd
      else if buf.getD q 0 == 40 then facesLoop buf fuel (q + 1) true acc
      else if buf.getD q 0 == 41 then
        if inside then facesLoop buf fuel (q + 1) false acc
        else .ok (acc.reverse, q + 1)
      else
        match parse_number buf q with
        | none => facesLoop buf fuel (q + 1) inside acc
        | some (v, isInt, nxt) =>
          if !isInt then .error .expectedInt
          else facesLoop buf fuel nxt inside (castLL v :: acc)

/-- `parse_ascii_faces_list(contents, start_pos)`: the flat int64 value
sequence and the end position. -/
def parse_ascii_faces_list (buf : List Nat) (startPos : Nat) :
    Except AErr (List ℤ × Nat) :=
  facesLoop buf (buf.length + 1) startPos false []

end ParseAscii

namespace SkipExt

theorem skipWsAux_ge (buf : List Nat) (nl : Bool) :
    ∀ fuel pos, pos ≤ skipWsAux buf nl fuel pos := by
  intro fuel
  induction fuel with
  | zero => intro pos; exact Nat.le_refl pos
  | succ n ih =>
    intro pos
    unfold skipWsAux
    split
    · split
      · exact Nat.le_trans (Nat.le_succ pos) (ih (pos + 1))
      · exact Nat.le_refl pos
    · exact Nat.le_refl pos

theorem skipWsAux_stuck (buf : List Nat) (nl : Bool) :
    ∀ fuel pos, buf.length ≤ fuel + pos →
      buf.length ≤ skipWsAux buf nl fuel pos ∨
        wsByte nl (buf.getD (skipWsAux buf nl fuel pos) 0) = false := by
  intro fuel
  induction fuel with
  | zero =>
    intro pos h
    left
    unfold skipWsAux
    omega
  | succ n ih =>
    intro pos h
    unfold skipWsAux
    split
    · split
      next hws => exact ih (pos + 1) (by omega)
      next hws =>
        right
        simpa using hws
    · left
      omega

theorem skipWs_ge (buf : List Nat) (nl : Bool) (pos : Nat) :
    pos ≤ skipWs buf nl pos :=
  skipWsAux_ge buf nl (buf.length + 1) pos

theorem skipWs_stuck (buf : List Nat) (nl : Bool) (pos : Nat) :
    buf.length ≤ skipWs buf nl pos ∨
      wsByte nl (buf.getD (skipWs buf nl pos) 0) = false :=
  skipWsAux_stuck buf nl (buf.length + 1) pos (by omega)

theorem skipWs_fix (buf : List Nat) (nl : Bool) (pos : Nat) :
    skipWs buf nl (skipWs buf nl pos) = skipWs buf nl pos := by
  have h := skipWs_stuck buf nl pos
  show skipWsAux buf nl (buf.length + 1) (skipWs buf nl pos) = skipWs buf nl pos
  unfold skipWsAux
  rcases h with h | h
  · rw [if_neg (by omega)]
  · split
    · rw [if_neg (by rw [h]; exact Bool.false_ne_true)]
    · rfl

theorem skipLineAux_ge (buf : List Nat) (nl : Bool) :
    ∀ fuel pos, pos ≤ skipLineAux buf nl fuel pos := by
  intro fuel
  induction fuel with
  | zero => intro pos; exact Nat.le_refl pos
  | succ n ih =>
    intro pos
    unfold skipLineAux
    split
    · split
      · split
        · exact Nat.le_succ pos
        · exact Nat.le_refl pos
      · split
        · exact Nat.le_trans (by omega) (ih (pos + 2))
        · exact Nat.le_trans (Nat.le_succ pos) (ih (pos + 1))
    · exact Nat.le_refl pos

theorem skipLine_ge (buf : List Nat) (nl : Bool) (pos : Nat) :
    pos ≤ skipLine buf nl pos :=
  skipLineAux_ge buf nl (buf.length + 1) pos

theorem skipBlockAux_ok_ge (buf : List Nat) :
    ∀ fuel pos q, skipBlockAux buf fuel pos = .ok q → pos + 2 ≤ q := by
  intro fuel
  induction fuel with
  | zero => intro pos q h; exact absurd h (by simp [skipBlockAux])
  | succ n ih =>
    intro pos q h
    unfold skipBlockAux at h
    split at h
    · split at h
      · simp only [Except.ok.injEq] at h
        omega
      · exact Nat.le_trans (by omega) (ih (pos + 1) q h)
    · exact absurd h (by simp)

theorem skipBlockAux_error_eq (buf : List Nat) :
    ∀ fuel pos e, skipBlockAux buf fuel pos = .error e →
      e = ⟨buf.length, "*/"⟩ := by
  intro fuel
  induction fuel with
  | zero =>
    intro pos e h
    simpa [skipBlockAux, eq_comm] using h
  | succ n ih =>
    intro pos e h
    unfold skipBlockAux at h
    split at h
    · split at h
      · exact absurd h (by simp)
      · exact ih (pos + 1) e h
    · simpa [eq_comm] using h

theorem skipBlockAux_noClose (buf : List Nat) :
    ∀ fuel pos,
      (∀ i, pos ≤ i → i + 1 < buf.length →
        ¬(buf.getD i 0 = 42 ∧ buf.getD (i + 1) 0 = 47)) →
      skipBlockAux buf fuel pos = .error ⟨buf.length, "*/"⟩ := by
  intro fuel
  induction fuel with
  | zero => intro pos h; rfl
  | succ n ih =>
    intro pos h
    unfold skipBlockAux
    split
    next hlt =>
      rw [if_neg (by simpa using h pos (Nat.le_refl pos) hlt)]
      exact ih (pos + 1) (fun i hi => h i (by omega))
    next => rfl

theorem skipAux_ok_ge (buf : List Nat) (nl : Bool) :
    ∀ fuel pos q, skipAux buf nl fuel pos = .ok q → pos ≤ q := by
  intro fuel
  induction fuel with
  | zero =>
    intro pos q h
    simp only [skipAux, Except.ok.injEq] at h
    omega
  | succ n ih =>
    intro pos q h
    simp only [skipAux] at h
    split at h
    · simp only [Except.ok.injEq] at h
      exact Nat.le_trans (skipWs_ge buf nl pos) (by omega)
    · split at h
      · exact Nat.le_trans
          (Nat.le_trans (Nat.le_trans (skipWs_ge buf nl pos) (by omega))
            (skipLine_ge buf nl (skipWs buf nl pos + 2)))
          (ih _ q h)
      · split at h
        · split at h
          next q2 hq2 =>
            have h2 := skipBlockAux_ok_ge buf (buf.length + 1) _ q2 hq2
            have h3 := ih _ q h
            have h4 := skipWs_ge buf nl pos
            omega
          next => exact absurd h (by simp)
        · simp only [Except.ok.injEq] at h
          exact Nat.le_trans (skipWs_ge buf nl pos) (by omega)

theorem skipAux_stuck (buf : List Nat) (nl : Bool) (q : Nat)
    (hfix : skipWs buf nl q = q)
    (hc : buf.length ≤ q + 1 ∨
      (¬(buf.getD q 0 = 47 ∧ buf.getD (q + 1) 0 = 47) ∧
        ¬(buf.getD q 0 = 47 ∧ buf.getD (q + 1) 0 = 42))) :
    ∀ m, skipAux buf nl m q = .ok q := by
  intro m
  cases m with
  | zero => rfl
  | succ n =>
    simp only [skipAux, hfix]
    by_cases hlen : buf.length ≤ q + 1
    · rw [if_pos hlen]
    · rw [if_neg hlen]
      rcases hc with hc | ⟨h1, h2⟩
      · omega
      · rw [if_neg (by simpa using h1), if_neg (by simpa using h2)]

theorem skipAux_ok_idem (buf : List Nat) (nl : Bool) :
    ∀ fuel pos q, buf.length + 1 ≤ fuel + pos → skipAux buf nl fuel pos = .ok q →
      ∀ m, skipAux buf nl m q = .ok q := by
  intro fuel
  induction fuel with
  | zero =>
    intro pos q hsuf h
    simp only [skipAux, Except.ok.injEq] at h
    subst h
    apply skipAux_stuck
    · show skipWsAux buf nl (buf.length + 1) pos = pos
      unfold skipWsAux
      rw [if_neg (by omega)]
    · left
      omega
  | succ n ih =>
    intro pos q hsuf h
    simp only [skipAux] at h
    split at h
    next hlen =>
      simp only [Except.ok.injEq] at h
      subst h
      exact skipAux_stuck buf nl _ (skipWs_fix buf nl pos) (Or.inl hlen)
    next hlen =>
      split at h
      next hcom =>
        have hge1 := skipWs_ge buf nl pos
        have hge2 := skipLine_ge buf nl (skipWs buf nl pos + 2)
        exact ih _ q (by omega) h
      next hcom =>
        split at h
        next hcom2 =>
          split at h
          next q2 hq2 =>
            have hge1 := skipWs_ge buf nl pos
            have hge2 := skipBlockAux_ok_ge buf (buf.length + 1) _ q2 hq2
            exact ih _ q (by omega) h
          next => exact absurd h (by simp)
        next hcom2 =>
          simp only [Except.ok.injEq] at h
          subst h
          refine skipAux_stuck buf nl _ (skipWs_fix buf nl pos) (Or.inr ⟨?_, ?_⟩)
          · simpa using hcom
          · simpa using hcom2

theorem skipAux_error_eq (buf : List Nat) (nl : Bool) :
    ∀ fuel pos e, skipAux buf nl fuel pos = .error e → e = ⟨buf.length, "*/"⟩ := by
  intro fuel
  induction fuel with
  | zero => intro pos e h; exact absurd h (by simp [skipAux])
  | succ n ih =>
    intro pos e h
    simp only [skipAux] at h
    split at h
    · exact absurd h (by simp)
    · split at h
      · exact ih _ e h
      · split at h
        · split at h
          next q2 hq2 => exact ih _ e h
          next e2 he2 =>
            simp only [Except.error.injEq] at h
            rw [← h]
            exact skipBlockAux_error_eq buf (buf.length + 1) _ e2 he2
        · exact absurd h (by simp)

theorem skip_ok_mono_idem (buf : List Nat) (nl : Bool) (p p' : Nat)
    (h : skip buf nl p = .ok p') : p ≤ p' ∧ skip buf nl p' = .ok p' :=
  ⟨skipAux_ok_ge buf nl (buf.length + 1) p p' h,
    skipAux_ok_idem buf nl (buf.length + 1) p p' (by omega) h (buf.length + 1)⟩

theorem skip_error_eq (buf : List Nat) (nl : Bool) (pos : Nat) (e : DecodeError)
    (h : skip buf nl pos = .error e) : e = ⟨buf.length, "*/"⟩ :=
  skipAux_error_eq buf nl (buf.length + 1) pos e h

theorem skip_unterminated (buf : List Nat) (nl : Bool) (pos : Nat)
    (hlen : skipWs buf nl pos + 1 < buf.length)
    (h1 : buf.getD (skipWs buf nl pos) 0 = 47)
    (h2 : buf.getD (skipWs buf nl pos + 1) 0 = 42)
    (hnc : ∀ i, skipWs buf nl pos + 2 ≤ i → i + 1 < buf.length →
      ¬(buf.getD i 0 = 42 ∧ buf.getD (i + 1) 0 = 47)) :
    skip buf nl pos = .error ⟨buf.length, "*/"⟩ := by
  show skipAux buf nl (buf.length + 1) pos = _
  simp only [skipAux]
  rw [if_neg (by omega), if_neg (by rw [h1, h2]; decide),
    if_pos (by rw [h1, h2]; decide)]
  have hb : skipBlock buf (skipWs buf nl pos + 2) = .error ⟨buf.length, "*/"⟩ :=
    skipBlockAux_noClose buf (buf.length + 1) _ hnc
  rw [hb]

theorem skipLineAux_spec (buf : List Nat) :
    ∀ fuel pos, buf.length ≤ fuel + pos →
      (skipLineAux buf false fuel pos < buf.length →
        buf.getD (skipLineAux buf false fuel pos) 0 = 10) ∧
      skipLineAux buf true fuel pos =
        (if skipLineAux buf false fuel pos < buf.length
          then skipLineAux buf false fuel pos + 1
          else skipLineAux buf false fuel pos) := by
  intro fuel
  induction fuel with
  | zero =>
    intro pos h
    constructor
    · intro hlt
      exfalso
      unfold skipLineAux at hlt
      omega
    · unfold skipLineAux
      rw [if_neg (by omega)]
  | succ n ih =>
    intro pos h
    by_cases hpos : pos < buf.length
    · by_cases h10 : buf.getD pos 0 = 10
      · have hf : skipLineAux buf false (n + 1) pos = pos := by
          unfold skipLineAux
          rw [if_pos hpos, if_pos (by rw [h10]; decide)]
          exact if_neg Bool.false_ne_true
        have ht : skipLineAux buf true (n + 1) pos = pos + 1 := by
          unfold skipLineAux
          rw [if_pos hpos, if_pos (by rw [h10]; decide)]
          exact if_pos rfl
        rw [hf, ht, if_pos hpos]
        exact ⟨fun _ => h10, rfl⟩
      · by_cases hbs : (buf.getD pos 0 == 92 && decide (pos + 1 < buf.length) &&
            buf.getD (pos + 1) 0 == 10) = true
        · have hf : skipLineAux buf false (n + 1) pos =
              skipLineAux buf false n (pos + 2) := by
            conv_lhs => unfold skipLineAux
            rw [if_pos hpos, if_neg (by simp only [beq_iff_eq]; exact h10), if_pos hbs]
          have ht : skipLineAux buf true (n + 1) pos =
              skipLineAux buf true n (pos + 2) := by
            conv_lhs => unfold skipLineAux
            rw [if_pos hpos, if_neg (by simp only [beq_iff_eq]; exact h10), if_pos hbs]
          rw [hf, ht]
          exact ih (pos + 2) (by omega)
        · have hf : skipLineAux buf false (n + 1) pos =
              skipLineAux buf false n (pos + 1) := by
            conv_lhs => unfold skipLineAux
            rw [if_pos hpos, if_neg (by simp only [beq_iff_eq]; exact h10), if_neg hbs]
          have ht : skipLineAux buf true (n + 1) pos =
              skipLineAux buf true n (pos + 1) := by
            conv_lhs => unfold skipLineAux
            rw [if_pos hpos, if_neg (by simp only [beq_iff_eq]; exact h10), if_neg hbs]
          rw [hf, ht]
          exact ih (pos + 1) (by omega)
    · have hf : skipLineAux buf false (n + 1) pos = pos := by
        unfold skipLineAux
        rw [if_neg hpos]
      have ht : skipLineAux buf true (n + 1) pos = pos := by
        unfold skipLineAux
        rw [if_neg hpos]
      rw [hf, ht, if_neg hpos]
      exact ⟨fun hlt => absurd hlt hpos, rfl⟩

theorem skipLine_false_stop (buf : List Nat) (pos : Nat) :
    skipLine buf false pos < buf.length →
      buf.getD (skipLine buf false pos) 0 = 10 :=
  (skipLineAux_spec buf (buf.length + 1) pos (by omega)).1

theorem skipLine_true_eq (buf : List Nat) (pos : Nat) :
    skipLine buf true pos =
      (if skipLine buf false pos < buf.length
        then skipLine buf false pos + 1
        else skipLine buf false pos) :=
  (skipLineAux_spec buf (buf.length + 1) pos (by omega)).2

theorem stripSign_mem (s : List Nat) (x : Nat) (h : x ∈ (stripSign s).2) :
    x ∈ s := by
  cases s with
  | nil => simp [stripSign] at h
  | cons c t =>
    simp only [stripSign] at h
    split at h
    · exact List.mem_cons_of_mem c h
    · split at h
      · exact List.mem_cons_of_mem c h
      · exact h

theorem mem_stripSign (s : List Nat) (x : Nat) (h : x ∈ s) :
    x = 45 ∨ x = 43 ∨ x ∈ (stripSign s).2 := by
  cases s with
  | nil => simp at h
  | cons c t =>
    simp only [stripSign]
    split
    next hc =>
      rcases List.mem_cons.mp h with h | h
      · left; omega
      · right; right; exact h
    · split
      next hc =>
        rcases List.mem_cons.mp h with h | h
        · right; left; omega
        · right; right; exact h
      · right; right; exact h

theorem isDigitB_lower (x : Nat) (h : isDigitB x = true) : lowerByte x = x := by
  simp only [isDigitB, Bool.and_eq_true, decide_eq_true_eq] at h
  unfold lowerByte
  rw [if_neg (by omega)]

theorem digits_map_lower_ne (t : List Nat) (ht : t.all isDigitB = true)
    (hd : Nat) (tl : List Nat) (hh : hd = 110 ∨ hd = 105) :
    t.map lowerByte ≠ hd :: tl := by
  intro heq
  cases t with
  | nil => simp at heq
  | cons a t2 =>
    simp only [List.map_cons, List.cons.injEq] at heq
    simp only [List.all_cons, Bool.and_eq_true] at ht
    have hl := isDigitB_lower a ht.1
    have ha := ht.1
    simp only [isDigitB, Bool.and_eq_true, decide_eq_true_eq] at ha
    omega

theorem pyLong_some_marker_free (chars : List Nat) (z : ℤ)
    (h : pyLongFromString chars = some z) :
    46 ∉ chars ∧ 101 ∉ chars ∧ 69 ∉ chars ∧ specialSpelling chars = false := by
  unfold pyLongFromString at h
  split at h
  case isFalse => exact absurd h (by simp)
  case isTrue hcond =>
    simp only [Bool.and_eq_true, Bool.not_eq_true'] at hcond
    have hall := hcond.2
    have hdig : ∀ x ∈ (stripSign chars).2, isDigitB x = true := by
      intro x hx
      exact List.all_eq_true.mp hall x hx
    have key : ∀ y, isDigitB y = false → y ≠ 45 → y ≠ 43 → y ∉ chars := by
      intro y hnd h45 h43 hy
      rcases mem_stripSign chars y hy with h | h | h
      · exact h45 h
      · exact h43 h
      · rw [hdig y h] at hnd
        simp at hnd
    refine ⟨key 46 (by decide) (by decide) (by decide),
      key 101 (by decide) (by decide) (by decide),
      key 69 (by decide) (by decide) (by decide), ?_⟩
    have hne1 := digits_map_lower_ne _ hall 110 [97, 110] (Or.inl rfl)
    have hne2 := digits_map_lower_ne _ hall 105 [110, 102] (Or.inr rfl)
    have hne3 := digits_map_lower_ne _ hall 105
      [110, 102, 105, 110, 105, 116, 121] (Or.inr rfl)
    simp only [specialSpelling, Bool.or_eq_false_iff, beq_eq_false_iff_ne, ne_eq]
    exact ⟨⟨hne1, hne2⟩, hne3⟩

theorem parseExpTail_cons_marker (c : Nat) (r2 : List Nat) (m q : ℚ)
    (h : parseExpTail (c :: r2) m = some q) : c = 101 ∨ c = 69 := by
  simp only [parseExpTail] at h
  split at h
  next hc => exact hc
  next => exact absurd h (by simp)

theorem parseDecimal_all_digits (t : List Nat) (q : ℚ)
    (h : parseDecimal t = some q)
    (h46 : 46 ∉ t) (h101 : 101 ∉ t) (h69 : 69 ∉ t) :
    t.isEmpty = false ∧ t.all isDigitB = true := by
  unfold parseDecimal at h
  split at h
  next r2 hr2 =>
    exfalso
    apply h46
    have hm : 46 ∈ t.dropWhile isDigitB := by
      rw [hr2]
      exact List.mem_cons_self 46 r2
    exact (List.dropWhile_sublist isDigitB).subset hm
  next rest hr =>
    split at h
    next => exact absurd h (by simp)
    next hds =>
      have hsplit := List.takeWhile_append_dropWhile (p := isDigitB) (l := t)
      cases hrest : t.dropWhile isDigitB with
      | nil =>
        have ht : List.takeWhile isDigitB t = t := by
          conv_rhs => rw [← hsplit]
          rw [hrest, List.append_nil]
        have htne : t ≠ [] := by
          intro h0
          rw [h0] at hds
          simp at hds
        constructor
        · cases t with
          | nil => exact absurd rfl htne
          | cons a b => rfl
        · rw [List.all_eq_true]
          intro x hx
          rw [← ht] at hx
          exact List.mem_takeWhile_imp hx
      | cons c r2 =>
        exfalso
        rw [hrest] at h
        have hm : c ∈ t.dropWhile isDigitB := by
          rw [hrest]
          exact List.mem_cons_self c r2
        have hmt := (List.dropWhile_sublist isDigitB).subset hm
        rcases parseExpTail_cons_marker c r2 _ q h with hc | hc
        · exact h101 (hc ▸ hmt)
        · exact h69 (hc ▸ hmt)

theorem pyFloat_decimal_marker (chars : List Nat) (f : PyFloat)
    (hL : pyLongFromString chars = none)
    (hF : pyFloatFromString chars = some f)
    (hS : specialSpelling chars = false) :
    46 ∈ chars ∨ 101 ∈ chars ∨ 69 ∈ chars := by
  by_contra hcon
  push_neg at hcon
  obtain ⟨h46, h101, h69⟩ := hcon
  have h46t : 46 ∉ (stripSign chars).2 := fun hm => h46 (stripSign_mem _ _ hm)
  have h101t : 101 ∉ (stripSign chars).2 := fun hm => h101 (stripSign_mem _ _ hm)
  have h69t : 69 ∉ (stripSign chars).2 := fun hm => h69 (stripSign_mem _ _ hm)
  simp only [specialSpelling, Bool.or_eq_false_iff, beq_eq_false_iff_ne, ne_eq] at hS
  unfold pyFloatFromString at hF
  rw [if_neg hS.1.1] at hF
  rw [if_neg (by rintro (h | h); exacts [hS.1.2 h, hS.2 h])] at hF
  split at hF
  next q hq =>
    obtain ⟨hne, hall⟩ := parseDecimal_all_digits _ q hq h46t h101t h69t
    unfold pyLongFromString at hL
    rw [if_pos (by rw [hne, hall]; rfl)] at hL
    exact absurd hL (by simp)
  next => exact absurd hF (by simp)

theorem special_eval (chars : List Nat) (hS : specialSpelling chars = true) :
    pyFloatFromString chars = some (specialVal chars) ∧
      pyLongFromString chars = none := by
  simp only [specialSpelling, Bool.or_eq_true, beq_iff_eq] at hS
  constructor
  · unfold pyFloatFromString specialVal
    rcases hS with (h | h) | h
    · rw [if_pos h, if_pos h]
    · rw [if_neg (by rw [h]; decide), if_pos (Or.inl h), if_neg (by rw [h]; decide)]
    · rw [if_neg (by rw [h]; decide), if_pos (Or.inr h), if_neg (by rw [h]; decide)]
  · unfold pyLongFromString
    rw [if_neg]
    intro hc
    simp only [Bool.and_eq_true, Bool.not_eq_true'] at hc
    rcases hS with (h | h) | h
    · exact digits_map_lower_ne _ hc.2 110 [97, 110] (Or.inl rfl) h
    · exact digits_map_lower_ne _ hc.2 105 [110, 102] (Or.inr rfl) h
    · exact digits_map_lower_ne _ hc.2 105
        [110, 102, 105, 110, 105, 116, 121] (Or.inr rfl) h

theorem parse_number_either_ok (buf : List Nat) (pos : Nat) (v : PyNum) (e : Nat)
    (h : parse_number buf pos .intOrFloat = .ok (v, e)) :
    (∃ z, pyLongFromString (numChars buf pos .intOrFloat) = some z ∧ v = .int z) ∨
      (pyLongFromString (numChars buf pos .intOrFloat) = none ∧
        ∃ f, pyFloatFromString (numChars buf pos .intOrFloat) = some f ∧
          v = .float f) := by
  simp only [parse_number] at h
  split at h
  next => exact absurd h (by simp)
  next =>
    split at h
    next => exact absurd h (by simp)
    next =>
      split at h
      next z hz =>
        simp only [Except.ok.injEq, Prod.mk.injEq] at h
        exact Or.inl ⟨z, hz, h.1.symm⟩
      next hnone =>
        split at h
        next hti => exact absurd h (by simp)
        next hti =>
          split at h
          next f hf =>
            simp only [Except.ok.injEq, Prod.mk.injEq] at h
            exact Or.inr ⟨hnone, f, hf, h.1.symm⟩
          next => exact absurd h (by simp)

end SkipExt

/-- C4: for every buffer, start position and `newline_ok` flag, when `skip`
succeeds with result `p'`, then `p' ≥ p` (monotonicity) and running `skip`
again from `p'` succeeds and returns `p'` (idempotence). -/
theorem claim_C4 (buf : List Nat) (nl : Bool) (p p' : Nat)
    (h : SkipExt.skip buf nl p = .ok p') :
    p ≤ p' ∧ SkipExt.skip buf nl p' = .ok p' :=
  SkipExt.skip_ok_mono_idem buf nl p p' h

/-- Witness for C4 at `skip(b"  x", 0)`, which skips to position 2. -/
theorem claim_C4_witness :
    0 ≤ 2 ∧ SkipExt.skip (strBytes "  x") true 2 = .ok 2 :=
  claim_C4 (strBytes "  x") true 0 2 (by decide)

/-- C5: every error `skip` raises is the decode error at offset = buffer
length with expected `"*/"`; whenever the whitespace run ends at a `/*`
opener with no matching `*/` before end-of-input, `skip` fails with
exactly that error; in particular `skip(b"/* unterminated", 0)` fails at
offset 15 expecting `"*/"`. -/
theorem claim_C5 :
    (∀ (buf : List Nat) (nl : Bool) (pos : Nat) (e : SkipExt.DecodeError),
      SkipExt.skip buf nl pos = .error e →
        e.offset = buf.length ∧ e.expected = "*/") ∧
    (∀ (buf : List Nat) (nl : Bool) (pos : Nat),
      SkipExt.skipWs buf nl pos + 1 < buf.length →
      buf.getD (SkipExt.skipWs buf nl pos) 0 = 47 →
      buf.getD (SkipExt.skipWs buf nl pos + 1) 0 = 42 →
      (∀ i < buf.length, SkipExt.skipWs buf nl pos + 2 ≤ i →
        ¬(buf.getD i 0 = 42 ∧ buf.getD (i + 1) 0 = 47)) →
      SkipExt.skip buf nl pos = .error ⟨buf.length, "*/"⟩) ∧
    SkipExt.skip (strBytes "/* unterminated") true 0 = .error ⟨15, "*/"⟩ := by
  refine ⟨?_, ?_, by decide⟩
  · intro buf nl pos e h
    rw [SkipExt.skip_error_eq buf nl pos e h]
    exact ⟨rfl, rfl⟩
  · intro buf nl pos h1 h2 h3 h4
    exact SkipExt.skip_unterminated buf nl pos h1 h2 h3
      (fun i hge hlt => h4 i (by omega) hge)

/-- Witness for C5 at `skip(b"/* unterminated", 0)`. -/
theorem claim_C5_witness :
    (SkipExt.DecodeError.mk 15 "*/").offset = (strBytes "/* unterminated").length ∧
      (SkipExt.DecodeError.mk 15 "*/").expected = "*/" :=
  claim_C5.1 (strBytes "/* unterminated") true 0 ⟨15, "*/"⟩ (by decide)

/-- C8: inside a `//` line comment, the scan with `newline_ok = false` stops
exactly at the terminating newline (when one exists before end-of-input),
and the scan with `newline_ok = true` consumes exactly one byte more (the
newline); concretely, `skip(b"a  // x\nb", 1)` returns 7 with
`newline_ok = false` and 8 with `newline_ok = true`. -/
theorem claim_C8 :
    (∀ (buf : List Nat) (pos : Nat),
      (SkipExt.skipLine buf false pos < buf.length →
        buf.getD (SkipExt.skipLine buf false pos) 0 = 10) ∧
      SkipExt.skipLine buf true pos =
        (if SkipExt.skipLine buf false pos < buf.length
          then SkipExt.skipLine buf false pos + 1
          else SkipExt.skipLine buf false pos)) ∧
    SkipExt.skip (strBytes "a  // x\nb") false 1 = .ok 7 ∧
    SkipExt.skip (strBytes "a  // x\nb") true 1 = .ok 8 :=
  ⟨fun buf pos => ⟨SkipExt.skipLine_false_stop buf pos,
    SkipExt.skipLine_true_eq buf pos⟩, by decide, by decide⟩

/-- Witness for C8: on `b"x\n"` the `newline_ok = false` scan from 0 lands
on a newline byte. -/
theorem claim_C8_witness :
    (strBytes "x\n").getD (SkipExt.skipLine (strBytes "x\n") false 0) 0 = 10 :=
  (claim_C8.1 (strBytes "x\n") 0).1 (by decide)

/-- C6 counterexample: `_parse_number(b"1.5", 0, target=int)` does fail, but
its expected-description is `"number"`, not `"integer"`: the `.` after the
scanned digit run is a token-continuation byte, which is rejected before
the integer conversion is attempted. -/
theorem claim_C6_counterexample :
    SkipExt.parse_number (strBytes "1.5") 0 .int = .error ⟨0, "number"⟩ ∧
      ("number" : String) ≠ "integer" :=
  ⟨by decide, by decide⟩

/-- C6 (amended): `_parse_number(b"1.5", 0, target=int)` fails with a parse
error at position 0 whose expected-description is `"number"` (the byte
`'.'` that follows the lexed run `"1"` is in the token-continuation set,
so the token-continuation check fires before integer conversion). -/
theorem claim_C6 :
    SkipExt.parse_number (strBytes "1.5") 0 .int = .error ⟨0, "number"⟩ := by
  decide

/-- C7: for every literal accepted by `_parse_number` with
`target = int | float`, the result is an `int` exactly when the scanned
run contains no `.` and no `e`/`E` and is not a special NaN/infinity
spelling; a special spelling always yields the corresponding float (NaN,
or infinity signed by the optional sign). Concretely,
`_parse_number(b"-infinity", 0, target=float)` gives (−Infinity, 9) and
`_parse_number(b"NaN", 0)` gives (NaN, 3). -/
theorem claim_C7 :
    (∀ (buf : List Nat) (pos : Nat) (v : SkipExt.PyNum) (e : Nat),
      SkipExt.parse_number buf pos .intOrFloat = .ok (v, e) →
      (SkipExt.specialSpelling (SkipExt.numChars buf pos .intOrFloat) = true →
        v = .float (SkipExt.specialVal (SkipExt.numChars buf pos .intOrFloat))) ∧
      (SkipExt.specialSpelling (SkipExt.numChars buf pos .intOrFloat) = false →
        ((∃ z, v = .int z) ↔
          ¬(46 ∈ SkipExt.numChars buf pos .intOrFloat ∨
            101 ∈ SkipExt.numChars buf pos .intOrFloat ∨
            69 ∈ SkipExt.numChars buf pos .intOrFloat)))) ∧
    SkipExt.parse_number (strBytes "-infinity") 0 .float =
      .ok (.float (.inf true), 9) ∧
    SkipExt.parse_number (strBytes "NaN") 0 .intOrFloat =
      .ok (.float .nan, 3) := by
  refine ⟨?_, by decide, by decide⟩
  intro buf pos v e h
  rcases SkipExt.parse_number_either_ok buf pos v e h with
    ⟨z, hz, hv⟩ | ⟨hnone, f, hf, hv⟩
  · obtain ⟨h46, h101, h69, hspec⟩ := SkipExt.pyLong_some_marker_free _ z hz
    refine ⟨?_, ?_⟩
    · intro hsp
      rw [hspec] at hsp
      exact absurd hsp (by decide)
    · intro _
      constructor
      · rintro - (hm | hm | hm)
        exacts [h46 hm, h101 hm, h69 hm]
      · intro _
        exact ⟨z, hv⟩
  · refine ⟨?_, ?_⟩
    · intro hsp
      have hse := SkipExt.special_eval _ hsp
      rw [hse.1] at hf
      simp only [Option.some.injEq] at hf
      rw [hv, ← hf]
    · intro hsp
      constructor
      · rintro ⟨z, hvz⟩
        rw [hv] at hvz
        exact absurd hvz (by simp)
      · intro hnm
        exact absurd (SkipExt.pyFloat_decimal_marker _ f hnone hf hsp) hnm

/-- Witness for C7 at `_parse_number(b"NaN", 0)`: the special spelling NaN
yields the float NaN. -/
theorem claim_C7_witness :
    SkipExt.PyNum.float SkipExt.PyFloat.nan =
      .float (SkipExt.specialVal (SkipExt.numChars (strBytes "NaN") 0 .intOrFloat)) :=
  (claim_C7.1 (strBytes "NaN") 0 (.float .nan) 3 (by decide)).1 (by decide)

theorem chunkAux_flatten {α : Type} (k : Nat) (hk : 0 < k) :
    ∀ (fuel : Nat) (xs : List α), xs.length ≤ fuel →
      (chunkAux k fuel xs).flatten = xs := by
  intro fuel
  induction fuel with
  | zero =>
    intro xs h
    have hx : xs = [] := List.length_eq_zero.mp (by omega)
    subst hx
    rfl
  | succ n ih =>
    intro xs h
    cases xs with
    | nil => rfl
    | cons a t =>
      simp only [List.length_cons] at h
      have hd : (List.drop k (a :: t)).length ≤ n := by
        simp only [List.length_drop, List.length_cons]
        omega
      show (List.take k (a :: t) :: chunkAux k n (List.drop k (a :: t))).flatten
        = a :: t
      rw [List.flatten_cons, ih (List.drop k (a :: t)) hd]
      exact List.take_append_drop k (a :: t)

theorem chunkAux_length {α : Type} (k : Nat) (hk : 0 < k) :
    ∀ (fuel : Nat) (xs : List α), xs.length ≤ fuel → k ∣ xs.length →
      (chunkAux k fuel xs).length * k = xs.length := by
  intro fuel
  induction fuel with
  | zero =>
    intro xs h _
    have hx : xs = [] := List.length_eq_zero.mp (by omega)
    subst hx
    simp [chunkAux]
  | succ n ih =>
    intro xs h hdvd
    cases xs with
    | nil => simp [chunkAux]
    | cons a t =>
      obtain ⟨m, hm⟩ := hdvd
      simp only [List.length_cons] at h hm
      have hm1 : 1 ≤ m := by
        cases m with
        | zero => rw [Nat.mul_zero] at hm; omega
        | succ mm => omega
      have hkm : k ≤ t.length + 1 := by
        have : k * 1 ≤ k * m := Nat.mul_le_mul_left k hm1
        omega
      have hd : (List.drop k (a :: t)).length ≤ n := by
        simp only [List.length_drop, List.length_cons]
        omega
      have hdvd2 : k ∣ (List.drop k (a :: t)).length := by
        refine ⟨m - 1, ?_⟩
        simp only [List.length_drop, List.length_cons]
        cases m with
        | zero => omega
        | succ mm =>
          simp only [Nat.add_sub_cancel]
          rw [Nat.mul_succ] at hm
          omega
      have hrec := ih (List.drop k (a :: t)) hd hdvd2
      simp only [List.length_drop, List.length_cons] at hrec
      show (List.take k (a :: t) :: chunkAux k n (List.drop k (a :: t))).length * k
        = (a :: t).length
      rw [List.length_cons, Nat.succ_mul, hrec, List.length_cons]
      omega

theorem chunkAux_rows {α : Type} (k : Nat) (hk : 0 < k) :
    ∀ (fuel : Nat) (xs : List α), xs.length ≤ fuel → k ∣ xs.length →
      ∀ r ∈ chunkAux k fuel xs, r.length = k := by
  intro fuel
  induction fuel with
  | zero =>
    intro xs h _ r hr
    have hx : xs = [] := List.length_eq_zero.mp (by omega)
    subst hx
    simp [chunkAux] at hr
  | succ n ih =>
    intro xs h hdvd r hr
    cases xs with
    | nil => simp [chunkAux] at hr
    | cons a t =>
      obtain ⟨m, hm⟩ := hdvd
      simp only [List.length_cons] at h hm
      have hm1 : 1 ≤ m := by
        cases m with
        | zero => rw [Nat.mul_zero] at hm; omega
        | succ mm => omega
      have hkm : k ≤ t.length + 1 := by
        have : k * 1 ≤ k * m := Nat.mul_le_mul_left k hm1
        omega
      have hd : (List.drop k (a :: t)).length ≤ n := by
        simp only [List.length_drop, List.length_cons]
        omega
      have hdvd2 : k ∣ (List.drop k (a :: t)).length := by
        refine ⟨m - 1, ?_⟩
        simp only [List.length_drop, List.length_cons]
        cases m with
        | zero => omega
        | succ mm =>
          simp only [Nat.add_sub_cancel]
          rw [Nat.mul_succ] at hm
          omega
      have hr2 : r ∈ List.take k (a :: t) :: chunkAux k n (List.drop k (a :: t)) := hr
      rcases List.mem_cons.mp hr2 with hr3 | hr3
      · rw [hr3, List.length_take, List.length_cons]
        omega
      · exact ih (List.drop k (a :: t)) hd hdvd2 r hr3

theorem chunk_spec {α : Type} (k : Nat) (xs : List α) (hk : 0 < k)
    (hdvd : k ∣ xs.length) :
    (chunk k xs).flatten = xs ∧ (chunk k xs).length * k = xs.length ∧
      ∀ r ∈ chunk k xs, r.length = k :=
  ⟨chunkAux_flatten k hk xs.length xs (Nat.le_refl _),
    chunkAux_length k hk xs.length xs (Nat.le_refl _) hdvd,
    chunkAux_rows k hk xs.length xs (Nat.le_refl _) hdvd⟩

theorem doubleRoundNat_exact (n : Nat) (h : n ≤ 2 ^ 53) : doubleRoundNat n = n := by
  by_cases hlt : n < 2 ^ 53
  · unfold doubleRoundNat
    rw [if_pos hlt]
  · have he : n = 2 ^ 53 := by omega
    subst he
    decide

theorem doubleRoundInt_exact (z : ℤ) (h : z.natAbs ≤ 2 ^ 53) :
    doubleRoundInt z = z := by
  unfold doubleRoundInt
  split
  next hz =>
    rw [doubleRoundNat_exact z.toNat (by omega)]
    omega
  next hz =>
    rw [doubleRoundNat_exact (-z).toNat (by omega)]
    omega

theorem clampI64_natAbs (z : ℤ) : (clampI64 z).natAbs ≤ 2 ^ 63 := by
  unfold clampI64
  have h1 : -(2 ^ 63) ≤ max (-(2 ^ 63)) (min (2 ^ 63 - 1) z) := le_max_left _ _
  have h2 : max (-(2 ^ 63)) (min (2 ^ 63 - 1) z) ≤ 2 ^ 63 - 1 :=
    max_le (by norm_num) (min_le_left _ _)
  omega

namespace ParseAscii

theorem listLoop_ok_term (buf : List Nat) (f : Bool) (s : Nat) :
    ∀ (fuel p depth : Nat) (acc vals : List AFloat) (p' : Nat),
      listLoop buf f s fuel p depth acc = .ok (vals, p') →
      (∃ q, q < buf.length ∧ buf.getD q 0 = 41 ∧ p' = q + 1) ∨
        buf.length ≤ p' := by
  intro fuel
  induction fuel with
  | zero =>
    intro p depth acc vals p' h
    exact absurd h (by simp [listLoop])
  | succ n ih =>
    intro p depth acc vals p' h
    simp only [listLoop] at h
    split at h
    next hp =>
      simp only [Except.ok.injEq, Prod.mk.injEq] at h
      right
      omega
    next hp =>
      split at h
      next => exact absurd h (by simp)
      next hq =>
        split at h
        next h40 =>
          split at h
          next => exact absurd h (by simp)
          next => exact ih _ _ _ _ _ h
        next h40 =>
          split at h
          next h41 =>
            split at h
            next hd =>
              simp only [Except.ok.injEq, Prod.mk.injEq] at h
              left
              refine ⟨skip_whitespace_and_comments buf p, by omega, ?_, h.2.symm⟩
              simpa using h41
            next hd => exact ih _ _ _ _ _ h
          next h41 =>
            split at h
            next => exact absurd h (by simp)
            next =>
              split at h
              next => exact absurd h (by simp)
              next v isInt nxt hpn =>
                split at h
                next => exact absurd h (by simp)
                next => exact ih _ _ _ _ _ h

theorem facesLoop_ok_term (buf : List Nat) :
    ∀ (fuel p : Nat) (inside : Bool) (acc vals : List ℤ) (p' : Nat),
      facesLoop buf fuel p inside acc = .ok (vals, p') →
      (∃ q, q < buf.length ∧ buf.getD q 0 = 41 ∧ p' = q + 1) ∨
        buf.length ≤ p' := by
  intro fuel
  induction fuel with
  | zero =>
    intro p inside acc vals p' h
    exact absurd h (by simp [facesLoop])
  | succ n ih =>
    intro p inside acc vals p' h
    simp only [facesLoop] at h
    split at h
    next hp =>
      simp only [Except.ok.injEq, Prod.mk.injEq] at h
      right
      omega
    next hp =>
      split at h
      next => exact absurd h (by simp)
      next hq =>
        split at h
        next h40 => exact ih _ _ _ _ _ h
        next h40 =>
          split at h
          next h41 =>
            split at h
            next hin => exact ih _ _ _ _ _ h
            next hin =>
              simp only [Except.ok.injEq, Prod.mk.injEq] at h
              left
              refine ⟨skip_whitespace_and_comments buf p, by omega, ?_, h.2.symm⟩
              simpa using h41
          next h41 =>
            split at h
            next => exact ih _ _ _ _ _ h
            next v isInt nxt hpn =>
              split at h
              next => exact absurd h (by simp)
              next => exact ih _ _ _ _ _ h

theorem listLoop_eof (buf : List Nat) (f : Bool) (s fuel p depth : Nat)
    (acc : List AFloat) (hp : p < buf.length)
    (hq : buf.length ≤ skip_whitespace_and_comments buf p) :
    listLoop buf f s (fuel + 1) p depth acc = .error .unexpectedEnd := by
  simp only [listLoop]
  rw [if_neg (by omega), if_pos hq]

theorem facesLoop_eof (buf : List Nat) (fuel p : Nat) (inside : Bool)
    (acc : List ℤ) (hp : p < buf.length)
    (hq : buf.length ≤ skip_whitespace_and_comments buf p) :
    facesLoop buf (fuel + 1) p inside acc = .error .unexpectedEnd := by
  simp only [facesLoop]
  rw [if_neg (by omega), if_pos hq]

theorem facesLoop_skip_step (buf : List Nat) (fuel p : Nat) (inside : Bool)
    (acc : List ℤ) (hp : p < buf.length)
    (hq : skip_whitespace_and_comments buf p < buf.length)
    (h40 : buf.getD (skip_whitespace_and_comments buf p) 0 ≠ 40)
    (h41 : buf.getD (skip_whitespace_and_comments buf p) 0 ≠ 41)
    (hn : parse_number buf (skip_whitespace_and_comments buf p) = none) :
    facesLoop buf (fuel + 1) p inside acc =
      facesLoop buf fuel (skip_whitespace_and_comments buf p + 1) inside acc := by
  simp only [facesLoop]
  rw [if_neg (by omega), if_neg (by omega),
    if_neg (by simp only [beq_iff_eq]; exact h40),
    if_neg (by simp only [beq_iff_eq]; exact h41), hn]

theorem facesLoop_float_err (buf : List Nat) (fuel p : Nat) (inside : Bool)
    (acc : List ℤ) (v : AFloat) (nxt : Nat) (hp : p < buf.length)
    (hq : skip_whitespace_and_comments buf p < buf.length)
    (h40 : buf.getD (skip_whitespace_and_comments buf p) 0 ≠ 40)
    (h41 : buf.getD (skip_whitespace_and_comments buf p) 0 ≠ 41)
    (hs : parse_number buf (skip_whitespace_and_comments buf p) =
      some (v, false, nxt)) :
    facesLoop buf (fuel + 1) p inside acc = .error .expectedInt := by
  simp only [facesLoop]
  rw [if_neg (by omega), if_neg (by omega),
    if_neg (by simp only [beq_iff_eq]; exact h40),
    if_neg (by simp only [beq_iff_eq]; exact h41), hs]
  rfl

theorem facesLoop_int_step (buf : List Nat) (fuel p : Nat) (inside : Bool)
    (acc : List ℤ) (v : AFloat) (nxt : Nat) (hp : p < buf.length)
    (hq : skip_whitespace_and_comments buf p < buf.length)
    (h40 : buf.getD (skip_whitespace_and_comments buf p) 0 ≠ 40)
    (h41 : buf.getD (skip_whitespace_and_comments buf p) 0 ≠ 41)
    (hs : parse_number buf (skip_whitespace_and_comments buf p) =
      some (v, true, nxt)) :
    facesLoop buf (fuel + 1) p inside acc =
      facesLoop buf fuel nxt inside (castLL v :: acc) := by
  simp only [facesLoop]
  rw [if_neg (by omega), if_neg (by omega),
    if_neg (by simp only [beq_iff_eq]; exact h40),
    if_neg (by simp only [beq_iff_eq]; exact h41), hs]
  rfl

theorem mkArr_ok (f : Bool) (s : Nat) (vals : List AFloat) (arr : NDArr)
    (h : mkArr f s vals = .ok arr) :
    (s = 0 ∧ arr = (if f then .float1 vals else .int1 (vals.map castLL))) ∨
      (0 < s ∧ vals.length % s = 0 ∧
        arr = (if f then .float2 (chunk s vals)
          else .int2 (chunk s (vals.map castLL)))) := by
  unfold mkArr at h
  split at h
  next hs =>
    left
    simp only [Except.ok.injEq] at h
    exact ⟨hs, h.symm⟩
  next hs =>
    split at h
    next => exact absurd h (by simp)
    next hmod =>
      right
      simp only [Except.ok.injEq] at h
      exact ⟨by omega, not_not.mp hmod, h.symm⟩

theorem mkArr_mismatch (f : Bool) (s : Nat) (vals : List AFloat)
    (hs : 0 < s) (hmod : vals.length % s ≠ 0) :
    mkArr f s vals = .error (.shapeMismatch vals.length s) := by
  unfold mkArr
  rw [if_neg (by omega), if_pos hmod]

theorem parse_ascii_list_ok (buf : List Nat) (pos : Nat) (f : Bool) (s : Nat)
    (arr : NDArr) (p' : Nat) (h : parse_ascii_list buf pos f s = .ok (arr, p')) :
    ∃ vals, listLoop buf f s (buf.length + 1) pos 0 [] = .ok (vals, p') ∧
      mkArr f s vals = .ok arr := by
  unfold parse_ascii_list at h
  split at h
  next => exact absurd h (by simp)
  next vals p hloop =>
    split at h
    next => exact absurd h (by simp)
    next arr2 harr =>
      simp only [Except.ok.injEq, Prod.mk.injEq] at h
      exact ⟨vals, h.2 ▸ hloop, h.1 ▸ harr⟩

theorem parse_ascii_list_mismatch (buf : List Nat) (pos : Nat) (f : Bool)
    (s : Nat) (vals : List AFloat) (p' : Nat)
    (hloop : listLoop buf f s (buf.length + 1) pos 0 [] = .ok (vals, p'))
    (hs : 0 < s) (hmod : vals.length % s ≠ 0) :
    parse_ascii_list buf pos f s = .error (.shapeMismatch vals.length s) := by
  have hstep : parse_ascii_list buf pos f s =
      (match mkArr f s vals with
        | .error e => .error e
        | .ok arr => .ok (arr, p')) := by
    unfold parse_ascii_list
    rw [hloop]
  rw [hstep, mkArr_mismatch f s vals hs hmod]

theorem parse_number_int_shape (buf : List Nat) (p : Nat) (v : AFloat)
    (nxt : Nat) (h : parse_number buf p = some (v, true, nxt)) :
    ∃ z : ℤ, z.natAbs ≤ 2 ^ 63 ∧ v = .fin ((doubleRoundInt z : ℤ) : ℚ) := by
  unfold parse_number at h
  split at h
  next => exact absurd h (by simp)
  next =>
    unfold parseNumSigned at h
    split at h
    next => simp at h
    next =>
      split at h
      next =>
        split at h
        next => simp at h
        next => simp at h
      next =>
        split at h
        next => exact absurd h (by simp)
        next =>
          split at h
          next => exact absurd h (by simp)
          next =>
            split at h
            next =>
              split at h
              next => exact absurd h (by simp)
              next =>
                simp only [Option.some.injEq, Prod.mk.injEq, intPathVal] at h
                exact ⟨_, clampI64_natAbs _, h.1.symm⟩
            next =>
              split at h
              next => exact absurd h (by simp)
              next => simp at h

theorem blockScanAux_noClose (buf : List Nat) :
    ∀ (fuel pos : Nat), buf.length ≤ fuel + pos + 1 → pos + 1 < buf.length →
      (∀ i < buf.length, pos ≤ i →
        ¬(buf.getD i 0 = 42 ∧ buf.getD (i + 1) 0 = 47)) →
      blockScanAux buf fuel pos = buf.length - 1 := by
  intro fuel
  induction fuel with
  | zero =>
    intro pos h1 h2 h3
    unfold blockScanAux
    omega
  | succ n ih =>
    intro pos h1 h2 h3
    unfold blockScanAux
    rw [if_pos h2, if_neg (by simpa using h3 pos (by omega) (Nat.le_refl pos))]
    by_cases hlt : pos + 2 < buf.length
    · exact ih (pos + 1) (by omega) (by omega) (fun i hi hge => h3 i hi (by omega))
    · have hstop : blockScanAux buf n (pos + 1) = pos + 1 := by
        cases n with
        | zero => rfl
        | succ m =>
          unfold blockScanAux
          rw [if_neg (by omega)]
      rw [hstop]
      omega

theorem blockScan_noClose (buf : List Nat) (pos : Nat)
    (h2 : pos + 1 < buf.length)
    (h3 : ∀ i < buf.length, pos ≤ i →
      ¬(buf.getD i 0 = 42 ∧ buf.getD (i + 1) 0 = 47)) :
    blockScan buf pos = buf.length - 1 :=
  blockScanAux_noClose buf (buf.length + 1) pos (by omega) h2 h3

end ParseAscii

/-- C1: when `parse_ascii_list` succeeds, the result is built from the
values collected by the scan loop, ending at the same position: 1-D of all
values for `element_shape = 0`, and for `element_shape = s > 0` the value
count is an exact multiple of s and the array is the row-major chunking
into rows of s; `chunk` itself is row-major with count/s rows of s values
in encounter order; when the count is not a multiple of s the call fails
with a shape-mismatch error carrying the actual count and the shape.
Concretely `parse_ascii_list(b"1 2 3)", 0, False, 0)` gives ([1,2,3], 6)
and `parse_ascii_list(b"1 2 3 4 5 6)", 0, True, 3)` gives the 2x3 array
[[1,2,3],[4,5,6]] with end 12. -/
theorem claim_C1 :
    (∀ (buf : List Nat) (pos : Nat) (f : Bool) (s : Nat)
        (arr : ParseAscii.NDArr) (p' : Nat),
      ParseAscii.parse_ascii_list buf pos f s = .ok (arr, p') →
      ∃ vals, ParseAscii.listLoop buf f s (buf.length + 1) pos 0 [] =
          .ok (vals, p') ∧
        ((s = 0 ∧ arr = (if f then .float1 vals
            else .int1 (vals.map ParseAscii.castLL))) ∨
          (0 < s ∧ vals.length % s = 0 ∧
            arr = (if f then .float2 (chunk s vals)
              else .int2 (chunk s (vals.map ParseAscii.castLL)))))) ∧
    (∀ (α : Type) (k : Nat) (xs : List α), 0 < k → k ∣ xs.length →
      (chunk k xs).flatten = xs ∧ (chunk k xs).length * k = xs.length ∧
        ∀ r ∈ chunk k xs, r.length = k) ∧
    (∀ (buf : List Nat) (pos : Nat) (f : Bool) (s : Nat)
        (vals : List ParseAscii.AFloat) (p' : Nat),
      ParseAscii.listLoop buf f s (buf.length + 1) pos 0 [] = .ok (vals, p') →
      0 < s → vals.length % s ≠ 0 →
      ParseAscii.parse_ascii_list buf pos f s =
        .error (.shapeMismatch vals.length s)) ∧
    ParseAscii.parse_ascii_list (strBytes "1 2 3)") 0 false 0 =
      .ok (.int1 [1, 2, 3], 6) ∧
    ParseAscii.parse_ascii_list (strBytes "1 2 3 4 5 6)") 0 true 3 =
      .ok (.float2 [[.fin 1, .fin 2, .fin 3], [.fin 4, .fin 5, .fin 6]], 12) := by
  refine ⟨?_, ?_, ?_, by decide, by decide⟩
  · intro buf pos f s arr p' h
    obtain ⟨vals, hloop, hmk⟩ := ParseAscii.parse_ascii_list_ok buf pos f s arr p' h
    exact ⟨vals, hloop, ParseAscii.mkArr_ok f s vals arr hmk⟩
  · intro α k xs hk hdvd
    exact chunk_spec k xs hk hdvd
  · intro buf pos f s vals p' hloop hs hmod
    exact ParseAscii.parse_ascii_list_mismatch buf pos f s vals p' hloop hs hmod

/-- Witness for C1 at `parse_ascii_list(b"1 2)", 0, False, 0)`. -/
theorem claim_C1_witness :
    ∃ vals, ParseAscii.listLoop (strBytes "1 2)") false 0
        ((strBytes "1 2)").length + 1) 0 0 [] = .ok (vals, 4) ∧
      ((0 = 0 ∧ ParseAscii.NDArr.int1 [1, 2] =
          (if false then .float1 vals
            else .int1 (vals.map ParseAscii.castLL))) ∨
        (0 < 0 ∧ vals.length % 0 = 0 ∧
          ParseAscii.NDArr.int1 [1, 2] =
            (if false then .float2 (chunk 0 vals)
              else .int2 (chunk 0 (vals.map ParseAscii.castLL))))) :=
  claim_C1.1 (strBytes "1 2)") 0 false 0 (.int1 [1, 2]) 4 (by decide)

/-- C2 counterexample: both list parsers can return success without ever
consuming a closing `)`: when the buffer is exhausted exactly at the top
of the scan loop, the loop condition `p < end` simply fails and the values
read so far are returned. -/
theorem claim_C2_counterexample :
    ParseAscii.parse_ascii_list (strBytes "1 2 3") 0 false 0 =
      .ok (.int1 [1, 2, 3], 5) ∧
    ParseAscii.parse_ascii_faces_list (strBytes "3(0 1 2") 0 =
      .ok ([3, 0, 1, 2], 7) :=
  ⟨by decide, by decide⟩

/-- C2 (amended): when either list parser returns success, the end position
is either just past a `)` byte of the buffer (the consumed terminator), or
equals at least the buffer length with no terminator consumed — the latter
exactly when the buffer is exhausted at the top of the loop; and whenever
the in-loop whitespace/comment skip reaches end-of-input (the loop was
entered with `p < len` but skipping crossed the end), the parse fails with
the "unexpected end of input" error, as in
`parse_ascii_list(b"1 2 3 ", ...)` and `parse_ascii_faces_list(b"3(0 1 2 ", 0)`. -/
theorem claim_C2 :
    (∀ (buf : List Nat) (pos : Nat) (f : Bool) (s : Nat)
        (vals : List ParseAscii.AFloat) (p' fuel depth : Nat)
        (acc : List ParseAscii.AFloat),
      ParseAscii.listLoop buf f s fuel pos depth acc = .ok (vals, p') →
      (∃ q, q < buf.length ∧ buf.getD q 0 = 41 ∧ p' = q + 1) ∨
        buf.length ≤ p') ∧
    (∀ (buf : List Nat) (pos : Nat) (inside : Bool) (vals : List ℤ)
        (p' fuel : Nat) (acc : List ℤ),
      ParseAscii.facesLoop buf fuel pos inside acc = .ok (vals, p') →
      (∃ q, q < buf.length ∧ buf.getD q 0 = 41 ∧ p' = q + 1) ∨
        buf.length ≤ p') ∧
    (∀ (buf : List Nat) (f : Bool) (s fuel p depth : Nat)
        (acc : List ParseAscii.AFloat), p < buf.length →
      buf.length ≤ ParseAscii.skip_whitespace_and_comments buf p →
      ParseAscii.listLoop buf f s (fuel + 1) p depth acc =
        .error .unexpectedEnd) ∧
    (∀ (buf : List Nat) (fuel p : Nat) (inside : Bool) (acc : List ℤ),
      p < buf.length →
      buf.length ≤ ParseAscii.skip_whitespace_and_comments buf p →
      ParseAscii.facesLoop buf (fuel + 1) p inside acc =
        .error .unexpectedEnd) ∧
    ParseAscii.parse_ascii_list (strBytes "1 2 3 ") 0 false 0 =
      .error .unexpectedEnd ∧
    ParseAscii.parse_ascii_faces_list (strBytes "3(0 1 2 ") 0 =
      .error .unexpectedEnd := by
  refine ⟨?_, ?_, ?_, ?_, by decide, by decide⟩
  · intro buf pos f s vals p' fuel depth acc h
    exact ParseAscii.listLoop_ok_term buf f s fuel pos depth acc vals p' h
  · intro buf pos inside vals p' fuel acc h
    exact ParseAscii.facesLoop_ok_term buf fuel pos inside acc vals p' h
  · intro buf f s fuel p depth acc hp hq
    exact ParseAscii.listLoop_eof buf f s fuel p depth acc hp hq
  · intro buf fuel p inside acc hp hq
    exact ParseAscii.facesLoop_eof buf fuel p inside acc hp hq

/-- Witness for C2: the successful parse of `b"1)"` ends just past a `)`. -/
theorem claim_C2_witness :
    (∃ q, q < (strBytes "1)").length ∧ (strBytes "1)").getD q 0 = 41 ∧
      2 = q + 1) ∨ (strBytes "1)").length ≤ 2 :=
  claim_C2.1 (strBytes "1)") 0 false 0 [.fin 1] 2
    ((strBytes "1)").length + 1) 0 [] (by decide)

/-- C3: `parse_ascii_faces_list(b"3(0 1 2) 4(3 4 5 6))", 0)` returns the
flat int64 sequence [3,0,1,2,4,3,4,5,6] — every integer literal in
encounter order, leading counts included — ending just past the final
`)` (position 20); in the scan loop a non-parenthesis byte where no number
can be parsed is skipped silently (the loop advances one byte with no
error and unchanged output), a parsed value with a float shape aborts with
the "expected integer" error, and a parsed integer is appended to the
output (cast through the stored double) with the scan resuming at its
end. -/
theorem claim_C3 :
    ParseAscii.parse_ascii_faces_list (strBytes "3(0 1 2) 4(3 4 5 6))") 0 =
      .ok ([3, 0, 1, 2, 4, 3, 4, 5, 6], 20) ∧
    (∀ (buf : List Nat) (fuel p : Nat) (inside : Bool) (acc : List ℤ),
      p < buf.length →
      ParseAscii.skip_whitespace_and_comments buf p < buf.length →
      buf.getD (ParseAscii.skip_whitespace_and_comments buf p) 0 ≠ 40 →
      buf.getD (ParseAscii.skip_whitespace_and_comments buf p) 0 ≠ 41 →
      ParseAscii.parse_number buf
        (ParseAscii.skip_whitespace_and_comments buf p) = none →
      ParseAscii.facesLoop buf (fuel + 1) p inside acc =
        ParseAscii.facesLoop buf fuel
          (ParseAscii.skip_whitespace_and_comments buf p + 1) inside acc) ∧
    (∀ (buf : List Nat) (fuel p : Nat) (inside : Bool) (acc : List ℤ)
        (v : ParseAscii.AFloat) (nxt : Nat),
      p < buf.length →
      ParseAscii.skip_whitespace_and_comments buf p < buf.length →
      buf.getD (ParseAscii.skip_whitespace_and_comments buf p) 0 ≠ 40 →
      buf.getD (ParseAscii.skip_whitespace_and_comments buf p) 0 ≠ 41 →
      ParseAscii.parse_number buf
        (ParseAscii.skip_whitespace_and_comments buf p) =
          some (v, false, nxt) →
      ParseAscii.facesLoop buf (fuel + 1) p inside acc =
        .error .expectedInt) ∧
    (∀ (buf : List Nat) (fuel p : Nat) (inside : Bool) (acc : List ℤ)
        (v : ParseAscii.AFloat) (nxt : Nat),
      p < buf.length →
      ParseAscii.skip_whitespace_and_comments buf p < buf.length →
      buf.getD (ParseAscii.skip_whitespace_and_comments buf p) 0 ≠ 40 →
      buf.getD (ParseAscii.skip_whitespace_and_comments buf p) 0 ≠ 41 →
      ParseAscii.parse_number buf
        (ParseAscii.skip_whitespace_and_comments buf p) =
          some (v, true, nxt) →
      ParseAscii.facesLoop buf (fuel + 1) p inside acc =
        ParseAscii.facesLoop buf fuel nxt inside
          (ParseAscii.castLL v :: acc)) := by
  refine ⟨by decide, ?_, ?_, ?_⟩
  · intro buf fuel p inside acc hp hq h40 h41 hn
    exact ParseAscii.facesLoop_skip_step buf fuel p inside acc hp hq h40 h41 hn
  · intro buf fuel p inside acc v nxt hp hq h40 h41 hs
    exact ParseAscii.facesLoop_float_err buf fuel p inside acc v nxt hp hq h40 h41 hs
  · intro buf fuel p inside acc v nxt hp hq h40 h41 hs
    exact ParseAscii.facesLoop_int_step buf fuel p inside acc v nxt hp hq h40 h41 hs

/-- Witness for C3: the byte `;` is skipped silently by the faces loop. -/
theorem claim_C3_witness :
    ParseAscii.facesLoop (strBytes ";1)") (5 + 1) 0 false [] =
      ParseAscii.facesLoop (strBytes ";1)") 5
        (ParseAscii.skip_whitespace_and_comments (strBytes ";1)") 0 + 1)
        false [] :=
  claim_C3.2.1 (strBytes ";1)") 5 0 false [] (by decide) (by decide)
    (by decide) (by decide) (by decide)

/-- C9: every integer literal parsed by the list parsers is stored in a C
double before being cast back to int64: the integer path of
`parse_number` always yields `doubleRoundInt` of some int64-range value;
`doubleRoundInt` is the identity exactly on magnitudes up to 2^53, so such
literals are returned exactly, while the int64-range literal
9007199254740993 = 2^53 + 1 comes back as 9007199254740992 (its nearest
double), unlike 9007199254740992 = 2^53 which is exact. -/
theorem claim_C9 :
    (∀ z : ℤ, z.natAbs ≤ 2 ^ 53 → doubleRoundInt z = z) ∧
    (∀ (buf : List Nat) (p : Nat) (v : ParseAscii.AFloat) (nxt : Nat),
      ParseAscii.parse_number buf p = some (v, true, nxt) →
      ∃ z : ℤ, z.natAbs ≤ 2 ^ 63 ∧ v = .fin ((doubleRoundInt z : ℤ) : ℚ)) ∧
    ParseAscii.parse_ascii_list (strBytes "9007199254740993)") 0 false 0 =
      .ok (.int1 [9007199254740992], 17) ∧
    (9007199254740992 : ℤ) ≠ 9007199254740993 ∧
    ParseAscii.parse_ascii_list (strBytes "9007199254740992)") 0 false 0 =
      .ok (.int1 [9007199254740992], 17) := by
  refine ⟨doubleRoundInt_exact, ?_, by decide, by decide, by decide⟩
  intro buf p v nxt h
  exact ParseAscii.parse_number_int_shape buf p v nxt h

/-- Witness for C9: `doubleRoundInt` is exact at 7. -/
theorem claim_C9_witness : doubleRoundInt 7 = 7 :=
  claim_C9.1 7 (by decide)

/-- C10: the comment scan of `skip_whitespace_and_comments` raises no error
and, on a `/*` comment with no closing `*/` and content before the final
byte, stops exactly at the buffer's final byte (offset length − 1) —
so an unterminated block comment never yields an error at offset = length
inside the list parsers.  Consequently the final byte is re-read as list
content: `parse_ascii_list(b"1 2 /* junk )", ...)` terminates as if
well-formed, while `parse_ascii_list(b"1 2 /* junkx", ...)` reports an
unexpected character and `parse_ascii_list(b"1 2 /* junk ", ...)` reports
unexpected end of input. -/
theorem claim_C10 :
    (∀ (buf : List Nat) (pos : Nat), pos + 1 < buf.length →
      (∀ i < buf.length, pos ≤ i →
        ¬(buf.getD i 0 = 42 ∧ buf.getD (i + 1) 0 = 47)) →
      ParseAscii.blockScan buf pos = buf.length - 1) ∧
    ParseAscii.parse_ascii_list (strBytes "1 2 /* junk )") 0 false 0 =
      .ok (.int1 [1, 2], 13) ∧
    ParseAscii.parse_ascii_list (strBytes "1 2 /* junkx") 0 false 0 =
      .error (.unexpectedChar 120) ∧
    ParseAscii.parse_ascii_list (strBytes "1 2 /* junk ") 0 false 0 =
      .error .unexpectedEnd := by
  refine ⟨?_, by decide, by decide, by decide⟩
  intro buf pos h2 h3
  exact ParseAscii.blockScan_noClose buf pos h2 h3

/-- Witness for C10: the scan of the unterminated comment in `b"/*ab"`
stops at the final byte. -/
theorem claim_C10_witness :
    ParseAscii.blockScan (strBytes "/*ab") 2 = (strBytes "/*ab").length - 1 :=
  claim_C10.1 (strBytes "/*ab") 2 (by decide) (by decide)
